import Mathlib

/-!
Verification of the cloud-compliance system's specification against its
source. The repository ships the React UI (PipelineStatus, DeltaAnalysisPanel,
ArchitectureInput, IamAuditPanel components) together with service READMEs;
the Python backend services themselves are not part of the tree, so backend
behaviour (delta scoring, rule store, retrieval, event emission) is modelled
from the specification where needed, while all UI-side behaviour is embedded
directly from the JSX sources.
-/

namespace CloudCompliance

/-! ## A small JavaScript value model

The UI components consume JSON responses with plain JavaScript member access,
`Array.prototype.join` and `Array.prototype.map`.  `Prim` is a primitive
JavaScript value (including `undefined`), `JsVal` a full JSON-like value.
Member access on `null`/`undefined` throws (modelled as `none`); on any other
primitive or on an array it yields `undefined`; on an object it yields the
bound value or `undefined`.  `join` throws unless the receiver is an array.
-/

inductive Prim where
  | null
  | undef
  | bool (b : Bool)
  | num (q : ℚ)
  | str (s : String)
  deriving DecidableEq, Repr

inductive JsVal where
  | prim (p : Prim)
  | arr (elems : List JsVal)
  | obj (fields : List (String × JsVal))
  deriving Repr

/-- JavaScript member access `v.k`: `none` models a thrown TypeError. -/
def member (v : JsVal) (k : String) : Option JsVal :=
  match v with
  | .prim .null => none
  | .prim .undef => none
  | .prim _ => some (.prim .undef)
  | .arr _ => some (.prim .undef)
  | .obj fs => some ((fs.lookup k).getD (.prim .undef))

/-- Element stringification used by `Array.prototype.join`; `null` and
`undefined` become the empty string.  Stringification of nested containers is
abstracted (it never matters for success or failure of the consumers). -/
def joinElemString : JsVal → String
  | .prim .null => ""
  | .prim .undef => ""
  | .prim (.bool b) => cond b "true" "false"
  | .prim (.num q) => toString q
  | .prim (.str s) => s
  | .arr _ => ""
  | .obj _ => "[object Object]"

/-- `v.join(sep)`: succeeds exactly when `v` is an array. -/
def joinArr (sep : String) : JsVal → Option String
  | .arr l => some (String.intercalate sep (l.map joinElemString))
  | _ => none

/-- JavaScript `String(v)` conversion (container cases abstracted). -/
def jsDisplayString : JsVal → String
  | .prim .null => "null"
  | .prim .undef => "undefined"
  | .prim (.bool b) => cond b "true" "false"
  | .prim (.num q) => toString q
  | .prim (.str s) => s
  | .arr _ => ""
  | .obj _ => "[object Object]"

/-! ## DeltaAnalysisPanel.jsx: consumption of the `/compare` response

The result block renders `result.pass_pct`, `result.passed.join(", ")`,
`result.failed.join(", ")` and maps over `result.changes`, reading
`chg.field`, `chg.before`, `chg.after` of every entry. -/

/-- One `result.changes` entry as rendered:
`chg.field`, `String(chg.before)`, `String(chg.after)`. -/
def renderDeltaChange (c : JsVal) : Option String :=
  match member c "field", member c "before", member c "after" with
  | some f, some b, some a =>
      some (jsDisplayString f ++ ": " ++ jsDisplayString b ++ " -> " ++ jsDisplayString a)
  | _, _, _ => none

/-- Render every element of a JavaScript array with `f`, failing as soon as
one element fails (the `.map` callback inside the JSX). -/
def renderAll (f : JsVal → Option String) : List JsVal → Option (List String)
  | [] => some []
  | c :: cs =>
    match f c, renderAll f cs with
    | some s, some ss => some (s :: ss)
    | _, _ => none

/-- The result block of `DeltaAnalysisPanel.jsx` as a function of the
`/compare` response; `none` models a thrown rendering error. -/
def renderDeltaResult (result : JsVal) : Option String :=
  match member result "pass_pct" with
  | none => none
  | some pct =>
    match member result "passed" >>= joinArr ", " with
    | none => none
    | some passedStr =>
      match member result "failed" >>= joinArr ", " with
      | none => none
      | some failedStr =>
        match member result "changes" with
        | some (.arr chgs) =>
          match renderAll renderDeltaChange chgs with
          | none => none
          | some items =>
            some ("Pass %: " ++ jsDisplayString pct ++ "%\n" ++
                  "Fields Passed: " ++ passedStr ++ "\n" ++
                  "Fields Failed: " ++ failedStr ++ "\n" ++
                  String.intercalate "\n" items)
        | _ => none

/-- A value on which member access does not throw (not `null`, not
`undefined`). -/
def okElem : JsVal → Bool
  | .prim .null => false
  | .prim .undef => false
  | _ => true

/-- A bound value that is an array. -/
def isArrBinding : Option JsVal → Bool
  | some (.arr _) => true
  | _ => false

/-- The response shape the Delta consumer actually requires: an object whose
`passed` and `failed` members are arrays and whose `changes` member is an
array of values that are neither `null` nor `undefined`. -/
def consumedDeltaShape (v : JsVal) : Bool :=
  match v with
  | .obj fs =>
    isArrBinding (fs.lookup "passed") &&
    isArrBinding (fs.lookup "failed") &&
    (match fs.lookup "changes" with
     | some (.arr l) => l.all okElem
     | _ => false)
  | _ => false

/-- A `DeltaReport` shaped exactly as §3 of the specification describes it,
here the report the specification assigns to `Delta(empty, empty)`: a `fields`
list (empty) plus `pass_pct = 100`. -/
def specShapedDeltaReport : JsVal :=
  .obj [("fields", .arr []), ("pass_pct", .prim (.num 100))]

/-! ## ArchitectureInput: consumption of the `/validate-framework` response

`handleIaCValidation` (part_008 variant, the cited lines) builds
`"Passed: " + data.passed.join(", ") + "\nFailed: " + data.failed.join(", ")
+ "\nRecommendations:\n" + data.recommendations.map(r => r.suggested_fix).join("\n")`. -/

/-- One `data.recommendations` entry as consumed: `r.suggested_fix`. -/
def renderRecommendation (r : JsVal) : Option String :=
  match member r "suggested_fix" with
  | some v => some (joinElemString v)
  | none => none

/-- The alert text of `handleIaCValidation` as a function of the
`/validate-framework` response; `none` models a thrown error. -/
def renderValidationAlert (data : JsVal) : Option String :=
  match member data "passed" >>= joinArr ", " with
  | none => none
  | some passedStr =>
    match member data "failed" >>= joinArr ", " with
    | none => none
    | some failedStr =>
      match member data "recommendations" with
      | some (.arr recs) =>
        match renderAll renderRecommendation recs with
        | none => none
        | some fixes =>
          some ("Passed: " ++ passedStr ++ "\nFailed: " ++ failedStr ++
                "\nRecommendations:\n" ++ String.intercalate "\n" fixes)
      | _ => none

/-- The response shape the Validate consumer actually requires: an object with
`passed` and `failed` arrays and a `recommendations` array of values that are
neither `null` nor `undefined`. -/
def consumedValidationShape (v : JsVal) : Bool :=
  match v with
  | .obj fs =>
    isArrBinding (fs.lookup "passed") &&
    isArrBinding (fs.lookup "failed") &&
    (match fs.lookup "recommendations" with
     | some (.arr l) => l.all okElem
     | _ => false)
  | _ => false

/-- A Validate response shaped as the specification's §6 contract describes
it: an ordered list of ValidationResult records, here with one element. -/
def specShapedValidationList : JsVal :=
  .arr [.obj [("rule_id", .prim (.str "r1")),
              ("resource_id", .prim (.str "vm1")),
              ("status", .prim (.str "error")),
              ("reason", .prim (.str "predicate evaluation raised")),
              ("remediation_suggestion", .prim (.str "enable encryption"))]]

/-! ## PipelineStatus.jsx -/

/-- JavaScript `String.prototype.toLowerCase`, modelled characterwise with
`Char.toLower` (the statuses compared against are all ASCII). -/
def jsToLowerCase (s : String) : String :=
  String.mk (s.data.map Char.toLower)

/-- `normalizeStatus` keyword chain, applied to the lowercased status. -/
def normStep (t : String) : String :=
  if t = "done" ∨ t = "success" then "Success"
  else if t = "error" ∨ t = "failed" ∨ t = "fail" then "Error"
  else if t = "running" ∨ t = "in_progress" then "Running"
  else "Idle"

/-- `normalizeStatus` from `PipelineStatus.jsx`: `none` models a missing
(`null`/`undefined`) status, the empty string is the only falsy string. -/
def normalizeStatus : Option String → String
  | none => "Idle"
  | some s => if s = "" then "Idle" else normStep (jsToLowerCase s)

/-- One entry of the `pipelineStates` array. -/
structure PipelineEntry where
  name : String
  status : String
  deriving DecidableEq, Repr

/-- `pipelineNames` from `PipelineStatus.jsx`. -/
def pipelineNames : List String :=
  ["Ingestion", "Validation", "Remediation", "IAM Audit", "Reporting"]

/-- `topicToName` from `PipelineStatus.jsx`. -/
def topicToName : List (String × String) :=
  [("rule-ingestion", "Ingestion"),
   ("framework-validator", "Validation"),
   ("iac-analysis", "Remediation"),
   ("iam-audit", "IAM Audit"),
   ("delta-analysis", "Reporting")]

/-- Initial `pipelineStates`: every pipeline `Idle`. -/
def initialPipelineStates : List PipelineEntry :=
  pipelineNames.map fun n => ⟨n, "Idle"⟩

/-- A `pipeline_update` socket event; `status` is `none` when absent. -/
structure UpdateEvent where
  pipeline : String
  status : Option String

/-- `topicToName[event.pipeline] || event.pipeline`. -/
def displayNameOf (p : String) : String :=
  (topicToName.lookup p).getD p

/-- The `pipeline_update` handler's state update from `PipelineStatus.jsx`:
map over the current entries, replacing the status of the entry whose name is
the event's mapped display name. -/
def applyPipelineUpdate (ev : UpdateEvent) (cur : List PipelineEntry) :
    List PipelineEntry :=
  cur.map fun p =>
    if p.name = displayNameOf ev.pipeline
    then { p with status := normalizeStatus ev.status }
    else p

/-! ## IamAuditPanel.jsx: `handleAudit` -/

/-- The state `handleAudit` touches: the textarea input, the last audit
result, the error banner. -/
structure AuditState where
  input : String
  result : Option JsVal
  error : String
  deriving Repr

/-- The synchronous part of `handleAudit` from `IamAuditPanel.jsx`,
parameterised by the JSON parser (`JSON.parse` modelled as an `Option`-valued
function; `none` means the parse throws).  Returns the new state and whether a
network request was issued.  On parse failure the handler sets the error
message and returns before the `fetch`; on success it has cleared the error
and issues the request (the asynchronous response continuation is outside the
claim's scope and not modelled). -/
def handleAudit (parse : String → Option JsVal) (st : AuditState) :
    AuditState × Bool :=
  match parse st.input with
  | none => ({ st with error := "Invalid JSON! Please check your input." }, false)
  | some _ => ({ st with error := "" }, true)

/-! ## Event emission (modelled from the spec)

The services' `event_bus.py` modules are not part of the tree. -/

/-- Modelled from the spec: the outcome a pipeline run reports to the bus,
§6 restricts the emitted status to running, success or error. -/
inductive RunOutcome where
  | running
  | success
  | error
  deriving DecidableEq, Repr

/-- Modelled from the spec: the status string carried by an emitted event. -/
def statusOf : RunOutcome → String
  | .running => "running"
  | .success => "success"
  | .error => "error"

/-- Modelled from the spec: a §6 bus event
(pipeline, status, summary, ISO-8601 timestamp). -/
structure BusEvent where
  pipeline : String
  status : String
  summary : String
  timestamp : String
  deriving Repr

/-- Modelled from the spec: the single event a run (ingestion, validation or
delta) emits to the external bus; `event_bus.py` is missing from the tree. -/
def emitPipelineEvent (pipeline : String) (o : RunOutcome)
    (summary timestamp : String) : BusEvent :=
  ⟨pipeline, statusOf o, summary, timestamp⟩

/-! ## Delta Analyzer (modelled from the spec)

`delta_utils.py` of the delta-analysis service is not part of the tree; the
flatten/classify/score pipeline below follows §4.5 of the specification. -/

/-- Classification of one path of the union, §3/§4.5. -/
inductive Classification where
  | unchanged
  | changed
  | added
  | removed
  deriving DecidableEq, Repr

/-- Dot-path concatenation. -/
def dotPath (pre k : String) : String :=
  if pre = "" then k else pre ++ "." ++ k

mutual
/-- Modelled from the spec: flatten a snapshot into dot-path/value pairs,
arrays indexed numerically (§4.5).  Empty containers contribute no paths. -/
def flattenAt (pre : String) : JsVal → List (String × Prim)
  | .prim p => [(pre, p)]
  | .arr l => flattenArr pre 0 l
  | .obj fs => flattenObj pre fs

/-- Flatten the elements of an array, numbering from `i`. -/
def flattenArr (pre : String) (i : Nat) : List JsVal → List (String × Prim)
  | [] => []
  | v :: vs => flattenAt (dotPath pre (toString i)) v ++ flattenArr pre (i + 1) vs

/-- Flatten the bindings of an object. -/
def flattenObj (pre : String) : List (String × JsVal) → List (String × Prim)
  | [] => []
  | (k, v) :: vs => flattenAt (dotPath pre k) v ++ flattenObj pre vs
end

/-- Modelled from the spec: flatten a snapshot from the root. -/
def flatten (v : JsVal) : List (String × Prim) :=
  flattenAt "" v

/-- Modelled from the spec: classify one union path from its value in `pre`
and in `post` (§4.5).  The double-`none` arm is unreachable for paths of the
union and is mapped to `unchanged`. -/
def classify : Option Prim → Option Prim → Classification
  | some x, some y => if x = y then .unchanged else .changed
  | none, some _ => .added
  | some _, none => .removed
  | none, none => .unchanged

/-- One row of a `DeltaReport`. -/
structure DeltaField where
  path : String
  before : Option Prim
  after : Option Prim
  classification : Classification
  deriving DecidableEq, Repr

/-- Modelled from the spec: `pass_pct` in tenths of a percent —
`(count(unchanged) / total_fields) * 100` rounded (half up) to one decimal,
the precision the §8 example fixes (`33.3`); the zero-field edge case yields
`100` by convention (§4.5).  Integer arithmetic:
`(2000 u + t) / (2 t)` is the rounding of `1000 u / t`. -/
def passPctTenths (unchangedCount totalFields : Nat) : Nat :=
  if totalFields = 0 then 1000
  else (2000 * unchangedCount + totalFields) / (2 * totalFields)

/-- Modelled from the spec: `pass_pct` as the percentage number itself. -/
def passPct (unchangedCount totalFields : Nat) : ℚ :=
  (passPctTenths unchangedCount totalFields : ℚ) / 10

/-- A §3 `DeltaReport`. -/
structure DeltaReport where
  fields : List DeltaField
  pass_pct : ℚ
  deriving DecidableEq, Repr

/-- Drop duplicate keys, keeping first occurrences in order. -/
def dedupKeys : List String → List String
  | [] => []
  | k :: ks => k :: (dedupKeys ks).filter (· ≠ k)

/-- Modelled from the spec: the union of the two flattened snapshots' paths,
first occurrences kept in order. -/
def unionPaths (fpre fpost : List (String × Prim)) : List String :=
  dedupKeys (fpre.map Prod.fst ++ fpost.map Prod.fst)

/-- Modelled from the spec: the Delta Analyzer, §4.5 — flatten both
snapshots, classify every union path, score the unchanged share. -/
def deltaReport (pre post : JsVal) : DeltaReport :=
  let fpre := flatten pre
  let fpost := flatten post
  let paths := unionPaths fpre fpost
  let fields := paths.map fun p =>
    ⟨p, fpre.lookup p, fpost.lookup p, classify (fpre.lookup p) (fpost.lookup p)⟩
  ⟨fields, passPct (fields.countP fun f => f.classification == .unchanged) fields.length⟩

/-! ## Rule extraction and the Rule Store (modelled from the spec)

`parse_utils.py` and `qdrant_utils.py` of the rule-ingestion service are not
part of the tree; normalization, the content-hash rule id, upsert and
retrieval below follow §4.2 and §4.3 of the specification. -/

/-- Split a character list into whitespace-free words; `acc` holds the
current word reversed. -/
def splitWords : List Char → List Char → List String
  | [], acc => if acc.isEmpty then [] else [String.mk acc.reverse]
  | c :: cs, acc =>
    if c.isWhitespace then
      if acc.isEmpty then splitWords cs [] else String.mk acc.reverse :: splitWords cs []
    else splitWords cs (c :: acc)

/-- Modelled from the spec: §4.2 normalization — lowercase and collapse
whitespace. -/
def normalizeText (s : String) : String :=
  String.intercalate " " (splitWords (jsToLowerCase s).data [])

/-- Modelled from the spec: the stable content hash over the normalized
control and predicate text that serves as `rule_id`.  An injective encoding
stands in for the hash function, which preserves exactly the property the
spec relies on: the id depends on the normalized content and on nothing
else. -/
def contentHash (controlText predicateText : String) : String :=
  "rid:" ++ normalizeText controlText ++ "|" ++ normalizeText predicateText

/-- An extractor output candidate (§3 `RuleCandidate`, the fields the id
depends on). -/
structure RuleCandidate where
  control_text : String
  predicate_text : String
  remediation_text : String
  deriving DecidableEq, Repr

/-- Modelled from the spec: the `rule_id` computed for a candidate extracted
from a given document and chunk.  The provenance arguments are taken but,
per the §3 invariant, never consulted (dedup by content, not by position). -/
def candidateRuleId (_docId : String) (_chunkIndex : Nat) (cand : RuleCandidate) :
    String :=
  contentHash cand.control_text cand.predicate_text

/-- A canonical, persisted Rule (§3; provenance and embedding abstracted). -/
structure Rule where
  rule_id : String
  framework : String
  description : String
  predicate_spec : String
  remediation_template : String
  deriving DecidableEq, Repr

/-- Modelled from the spec: §4.3 `upsert`, idempotent on `rule_id` — if a
rule with the id exists it is overwritten in place, otherwise the rule is
appended. -/
def upsert (store : List Rule) (r : Rule) : List Rule :=
  if store.any (fun x => x.rule_id == r.rule_id)
  then store.map fun x => if x.rule_id == r.rule_id then r else x
  else store ++ [r]

/-- Modelled from the spec: §4.3 query shape (a), exact-tag listing of all
Rules for a framework. -/
def exactTagListing (store : List Rule) (framework : String) : List Rule :=
  store.filter fun r => r.framework == framework

/-- Modelled from the spec: §4.3 query shape (b) with fallback — ranked
top-N retrieval when the similarity index is available, the unranked
exact-tag listing when it is not (never a failure surfaced to the caller). -/
def semanticRetrieve (index : Option (Rule → ℚ)) (store : List Rule)
    (framework : String) (n : Nat) : List Rule :=
  match index with
  | none => exactTagListing store framework
  | some score =>
      ((exactTagListing store framework).mergeSort
        (fun a b => decide (score b ≤ score a))).take n

/-! ## Helper lemmas -/

/-- `normalizeStatus` factors through lowercasing: the falsy-guard branch for
the empty string agrees with the keyword chain's fallback. -/
theorem normalizeStatus_eq_normStep (s : String) :
    normalizeStatus (some s) = normStep (jsToLowerCase s) := by
  by_cases h : s = ""
  · subst h; decide
  · simp [normalizeStatus, h]

/-- Rendering a `changes` entry succeeds exactly on non-`null`,
non-`undefined` values. -/
theorem renderDeltaChange_isSome (c : JsVal) : (renderDeltaChange c).isSome = okElem c := by
  cases c with
  | prim p => cases p <;> rfl
  | arr l => rfl
  | obj fs => rfl

/-- Rendering a `recommendations` entry succeeds exactly on non-`null`,
non-`undefined` values. -/
theorem renderRecommendation_isSome (r : JsVal) :
    (renderRecommendation r).isSome = okElem r := by
  cases r with
  | prim p => cases p <;> rfl
  | arr l => rfl
  | obj fs => rfl

/-- `renderAll` succeeds exactly when every element renders. -/
theorem renderAll_isSome (f : JsVal → Option String) (h : ∀ c, (f c).isSome = okElem c) :
    ∀ l : List JsVal, (renderAll f l).isSome = l.all okElem := by
  intro l
  induction l with
  | nil => rfl
  | cons a t ih =>
    have ha := h a
    cases hfa : f a with
    | none =>
      rw [hfa] at ha
      simp [renderAll, hfa, List.all_cons, ← ha]
    | some v =>
      rw [hfa] at ha
      simp only [Option.isSome_some] at ha
      cases hrt : renderAll f t with
      | none => simp [renderAll, hfa, hrt, List.all_cons, ← ih, hrt, ← ha]
      | some ss => simp [renderAll, hfa, hrt, List.all_cons, ← ih, hrt, ← ha]

/-- Membership in `dedupKeys` is membership in the original list. -/
theorem mem_dedupKeys {p : String} : ∀ l : List String, p ∈ dedupKeys l ↔ p ∈ l := by
  intro l
  induction l with
  | nil => simp [dedupKeys]
  | cons k ks ih =>
    by_cases h : p = k
    · subst h; simp [dedupKeys]
    · simp [dedupKeys, List.mem_filter, ih, h]

/-- A key occurring in an association list is found by `lookup`. -/
theorem lookup_isSome_of_mem_keys {p : String} :
    ∀ l : List (String × Prim), p ∈ l.map Prod.fst → (l.lookup p).isSome := by
  intro l
  induction l with
  | nil => simp
  | cons a t ih =>
    intro hm
    simp only [List.map_cons, List.mem_cons] at hm
    by_cases h : p = a.1
    · simp [List.lookup, h]
    · rcases hm with hm | hm
      · exact absurd hm h
      · simpa [List.lookup, beq_false_of_ne h] using ih hm

/-- Classifying a path against identical lookups yields `unchanged`. -/
theorem classify_self (o : Option Prim) : classify o o = .unchanged := by
  cases o with
  | none => rfl
  | some a => simp [classify]

/-- A fully unchanged report scores a flat 1000 tenths of a percent. -/
theorem passPctTenths_self (t : Nat) : passPctTenths t t = 1000 := by
  unfold passPctTenths
  rcases Nat.eq_zero_or_pos t with h | h
  · simp [h]
  · rw [if_neg (Nat.pos_iff_ne_zero.mp h)]
    rw [show 2000 * t + t = t + (2 * t) * 1000 by ring]
    rw [Nat.add_mul_div_left _ _ (by omega)]
    rw [Nat.div_eq_of_lt (by omega)]

/-- Comparing a snapshot against itself classifies every field unchanged. -/
theorem deltaReport_self_all_unchanged (x : JsVal) :
    ∀ f ∈ (deltaReport x x).fields, f.classification = .unchanged := by
  intro f hf
  simp only [deltaReport, List.mem_map] at hf
  obtain ⟨p, _, rfl⟩ := hf
  exact classify_self _

/-- The §8 example's pre-remediation snapshot. -/
def exDeltaPre : JsVal := .obj [("a", .prim (.num 1)), ("b", .prim (.num 2))]

/-- The §8 example's post-remediation snapshot. -/
def exDeltaPost : JsVal :=
  .obj [("a", .prim (.num 1)), ("b", .prim (.num 3)), ("c", .prim (.num 4))]

/-- Upserting the same rule twice is the same as upserting it once. -/
theorem upsert_idem (store : List Rule) (r : Rule) :
    upsert (upsert store r) r = upsert store r := by
  unfold upsert
  by_cases h : store.any (fun x => x.rule_id == r.rule_id)
  · rw [if_pos h]
    have hany : ((store.map fun x => if x.rule_id == r.rule_id then r else x).any
        fun x => x.rule_id == r.rule_id) = true := by
      rw [List.any_eq_true] at h ⊢
      obtain ⟨x, hx, hbeq⟩ := h
      exact ⟨r, by
        refine List.mem_map.mpr ⟨x, hx, ?_⟩
        simp [hbeq], by simp⟩
    rw [if_pos hany, List.map_map]
    apply List.map_congr_left
    intro x hx
    by_cases hb : (x.rule_id == r.rule_id) = true
    · simp [Function.comp, hb]
    · simp [Function.comp, hb]
  · rw [if_neg h]
    have hany : ((store ++ [r]).any fun x => x.rule_id == r.rule_id) = true := by
      rw [List.any_eq_true]
      exact ⟨r, by simp, by simp⟩
    rw [if_pos hany, List.map_append]
    have hstore : (store.map fun x => if x.rule_id == r.rule_id then r else x) = store := by
      conv_rhs => rw [← List.map_id store]
      apply List.map_congr_left
      intro x hx
      have hnb : ¬((x.rule_id == r.rule_id) = true) := by
        intro hcon
        exact h (List.any_eq_true.mpr ⟨x, hx, hcon⟩)
      simp [hnb]
    rw [hstore]
    simp

/-! ## Claim theorems -/

/-- C1 (amended): the Delta endpoint's output as consumed at the public
interface is an object carrying `pass_pct` plus `passed` and `failed` arrays
and a `changes` array of entries read through `field`, `before`, `after`; the
consumer succeeds exactly on that shape.  There is no `fields` list and no
per-entry `classification` at this interface. -/
theorem renderDeltaResult_isSome_eq (v : JsVal) :
    (renderDeltaResult v).isSome = consumedDeltaShape v := by
  cases v with
  | prim p => cases p <;> rfl
  | arr l => rfl
  | obj fs =>
    simp only [renderDeltaResult, consumedDeltaShape, member]
    rcases hp : fs.lookup "passed" with _ | w1
    · simp [hp, joinArr, isArrBinding]
    · cases w1 with
      | prim p1 => simp [hp, joinArr, isArrBinding]
      | obj o1 => simp [hp, joinArr, isArrBinding]
      | arr l1 =>
        rcases hf : fs.lookup "failed" with _ | w2
        · simp [hp, hf, joinArr, isArrBinding]
        · cases w2 with
          | prim p2 => simp [hp, hf, joinArr, isArrBinding]
          | obj o2 => simp [hp, hf, joinArr, isArrBinding]
          | arr l2 =>
            rcases hc : fs.lookup "changes" with _ | w3
            · simp [hp, hf, hc, joinArr, isArrBinding]
            · cases w3 with
              | prim p3 => simp [hp, hf, hc, joinArr, isArrBinding]
              | obj o3 => simp [hp, hf, hc, joinArr, isArrBinding]
              | arr l3 =>
                simp [hp, hf, hc, joinArr, isArrBinding]
                rw [← renderAll_isSome renderDeltaChange renderDeltaChange_isSome l3]
                cases hra : renderAll renderDeltaChange l3 <;> simp [hra]

/-- C1 counterexample: a report shaped exactly as the specification's §3
`DeltaReport` (a `fields` list plus `pass_pct`, here for `Delta(empty,empty)`)
is rejected by the interface consumer: the Delta panel's rendering throws on
it, so that shape is not the output consumed at the public interface. -/
theorem renderDeltaResult_rejects_specShape :
    renderDeltaResult specShapedDeltaReport = none ∧
    consumedDeltaShape specShapedDeltaReport = false := by
  exact ⟨rfl, rfl⟩

/-- C2 (amended): the Validate operation's output as consumed at the UI is a
summary object carrying `passed` and `failed` arrays and a `recommendations`
array of entries read through `suggested_fix`; the consumer succeeds exactly
on that shape, not on an ordered list of ValidationResult records. -/
theorem renderValidationAlert_isSome_eq (v : JsVal) :
    (renderValidationAlert v).isSome = consumedValidationShape v := by
  cases v with
  | prim p => cases p <;> rfl
  | arr l => rfl
  | obj fs =>
    simp only [renderValidationAlert, consumedValidationShape, member]
    rcases hp : fs.lookup "passed" with _ | w1
    · simp [hp, joinArr, isArrBinding]
    · cases w1 with
      | prim p1 => simp [hp, joinArr, isArrBinding]
      | obj o1 => simp [hp, joinArr, isArrBinding]
      | arr l1 =>
        rcases hf : fs.lookup "failed" with _ | w2
        · simp [hp, hf, joinArr, isArrBinding]
        · cases w2 with
          | prim p2 => simp [hp, hf, joinArr, isArrBinding]
          | obj o2 => simp [hp, hf, joinArr, isArrBinding]
          | arr l2 =>
            rcases hr : fs.lookup "recommendations" with _ | w3
            · simp [hp, hf, hr, joinArr, isArrBinding]
            · cases w3 with
              | prim p3 => simp [hp, hf, hr, joinArr, isArrBinding]
              | obj o3 => simp [hp, hf, hr, joinArr, isArrBinding]
              | arr l3 =>
                simp [hp, hf, hr, joinArr, isArrBinding]
                rw [← renderAll_isSome renderRecommendation renderRecommendation_isSome l3]
                cases hra : renderAll renderRecommendation l3 <;> simp [hra]

/-- C2 counterexample: a response shaped as the specification's §6 Validate
contract — an ordered list of ValidationResult records, one of them carrying
`status = error` — is rejected by the interface consumer: the alert
construction throws on it. -/
theorem renderValidationAlert_rejects_specList :
    renderValidationAlert specShapedValidationList = none ∧
    consumedValidationShape specShapedValidationList = false := by
  exact ⟨rfl, rfl⟩

/-- C4 (spec-modelled analyzer): every union path is classified unchanged
when present and equal in both snapshots, changed when present in both with
different values, added when present only in post, removed when present only
in pre; `pass_pct` is the unchanged share of the union, to one decimal; and
the §8 example computes `a` unchanged, `b` changed 2 to 3, `c` added, with
`pass_pct = 33.3`. -/
theorem deltaReport_classification_spec :
    (∀ pre post : JsVal, ∀ f ∈ (deltaReport pre post).fields,
      (∀ b a, f.before = some b → f.after = some a →
        f.classification =
          if b = a then Classification.unchanged else Classification.changed) ∧
      (f.before = none → f.after ≠ none ∧ f.classification = Classification.added) ∧
      (f.after = none → f.before ≠ none ∧ f.classification = Classification.removed)) ∧
    (∀ pre post : JsVal,
      (deltaReport pre post).pass_pct =
        passPct ((deltaReport pre post).fields.countP
          fun f => f.classification == Classification.unchanged)
          ((deltaReport pre post).fields.length) ∧
      (deltaReport pre post).fields.length =
        (unionPaths (flatten pre) (flatten post)).length) ∧
    ((deltaReport exDeltaPre exDeltaPost).fields =
      [⟨"a", some (.num 1), some (.num 1), .unchanged⟩,
       ⟨"b", some (.num 2), some (.num 3), .changed⟩,
       ⟨"c", none, some (.num 4), .added⟩] ∧
     (deltaReport exDeltaPre exDeltaPost).pass_pct = 333 / 10) := by
  refine ⟨?_, ?_, ?_, ?_⟩
  · intro pre post f hf
    simp only [deltaReport, List.mem_map] at hf
    obtain ⟨p, hp, rfl⟩ := hf
    have hmem : p ∈ (flatten pre).map Prod.fst ∨ p ∈ (flatten post).map Prod.fst := by
      have := (mem_dedupKeys _).mp hp
      simpa [List.mem_append] using this
    refine ⟨?_, ?_, ?_⟩
    · intro b a hb ha
      simp only at hb ha ⊢
      rw [hb, ha] at *
      simp [classify, hb, ha]
    · intro hbnone
      simp only at hbnone ⊢
      have hpost : ((flatten post).lookup p).isSome := by
        rcases hmem with hm | hm
        · have := lookup_isSome_of_mem_keys _ hm
          rw [hbnone] at this
          simp at this
        · exact lookup_isSome_of_mem_keys _ hm
      obtain ⟨a, ha⟩ := Option.isSome_iff_exists.mp hpost
      rw [hbnone, ha]
      simp [classify]
    · intro hanone
      simp only at hanone ⊢
      have hpre : ((flatten pre).lookup p).isSome := by
        rcases hmem with hm | hm
        · exact lookup_isSome_of_mem_keys _ hm
        · have := lookup_isSome_of_mem_keys _ hm
          rw [hanone] at this
          simp at this
      obtain ⟨b, hb⟩ := Option.isSome_iff_exists.mp hpre
      rw [hanone, hb]
      simp [classify]
  · intro pre post
    exact ⟨rfl, by simp [deltaReport]⟩
  · decide
  · have hp : (deltaReport exDeltaPre exDeltaPost).pass_pct =
        passPct ((deltaReport exDeltaPre exDeltaPost).fields.countP
          fun f => f.classification == Classification.unchanged)
        ((deltaReport exDeltaPre exDeltaPost).fields.length) := rfl
    have hfields : (deltaReport exDeltaPre exDeltaPost).fields =
        [⟨"a", some (.num 1), some (.num 1), .unchanged⟩,
         ⟨"b", some (.num 2), some (.num 3), .changed⟩,
         ⟨"c", none, some (.num 4), .added⟩] := by decide
    have hc : List.countP (fun f => f.classification == Classification.unchanged)
        ([⟨"a", some (.num 1), some (.num 1), .unchanged⟩,
          ⟨"b", some (.num 2), some (.num 3), .changed⟩,
          ⟨"c", none, some (.num 4), .added⟩] : List DeltaField) = 1 := by decide
    rw [hp, hfields, hc]
    norm_num [passPct, passPctTenths]

/-- C4 witness: the added-classification clause applied to the example's
`c` field, discharging the membership and absence hypotheses. -/
theorem deltaReport_classification_spec_witness :
    some (Prim.num 4) ≠ none ∧ Classification.added = Classification.added :=
  (deltaReport_classification_spec.1 exDeltaPre exDeltaPost
    ⟨"c", none, some (.num 4), .added⟩ (by decide)).2.1 rfl

/-- C5 (spec-modelled analyzer): comparing any snapshot with itself yields
`pass_pct = 100` and no changed, added or removed entries; the empty-inputs
case yields `pass_pct = 100` rather than a division error. -/
theorem deltaReport_self_yields_full_pass :
    (∀ x : JsVal,
      (deltaReport x x).pass_pct = 100 ∧
      ((deltaReport x x).fields.countP
        fun f => f.classification == Classification.changed) = 0 ∧
      ((deltaReport x x).fields.countP
        fun f => f.classification == Classification.added) = 0 ∧
      ((deltaReport x x).fields.countP
        fun f => f.classification == Classification.removed) = 0) ∧
    (deltaReport (.obj []) (.obj [])).fields = [] ∧
    (deltaReport (.obj []) (.obj [])).pass_pct = 100 := by
  have hz : ∀ (x : JsVal) (c : Classification), c ≠ Classification.unchanged →
      ((deltaReport x x).fields.countP fun f => f.classification == c) = 0 := by
    intro x c hc
    rw [List.countP_eq_zero]
    intro f hf
    have := deltaReport_self_all_unchanged x f hf
    simp [this]
    intro hcon
    exact hc hcon.symm
  refine ⟨?_, rfl, ?_⟩
  · intro x
    refine ⟨?_, hz x _ (by decide), hz x _ (by decide), hz x _ (by decide)⟩
    have hp : (deltaReport x x).pass_pct =
        passPct ((deltaReport x x).fields.countP
          fun f => f.classification == Classification.unchanged)
          ((deltaReport x x).fields.length) := rfl
    have hcount : ((deltaReport x x).fields.countP
        fun f => f.classification == Classification.unchanged) =
        (deltaReport x x).fields.length := by
      rw [List.countP_eq_length]
      intro f hf
      simp [deltaReport_self_all_unchanged x f hf]
    rw [hp, hcount]
    unfold passPct
    rw [passPctTenths_self]
    norm_num
  · have hp : (deltaReport (.obj []) (.obj [])).pass_pct = passPct 0 0 := rfl
    rw [hp]
    unfold passPct passPctTenths
    norm_num

/-- C6 (spec-modelled store): candidates carrying the same control and
predicate text after normalization receive the same `rule_id` regardless of
document and chunk position, and `upsert` is idempotent — upserting an
identical Rule twice leaves the Rule Store exactly as upserting it once. -/
theorem ruleId_dedup_upsert_idempotent :
    (∀ (d1 d2 : String) (i1 i2 : Nat) (c1 c2 : RuleCandidate),
      normalizeText c1.control_text = normalizeText c2.control_text →
      normalizeText c1.predicate_text = normalizeText c2.predicate_text →
      candidateRuleId d1 i1 c1 = candidateRuleId d2 i2 c2) ∧
    (∀ (store : List Rule) (r : Rule), upsert (upsert store r) r = upsert store r) := by
  refine ⟨?_, upsert_idem⟩
  intro d1 d2 i1 i2 c1 c2 h1 h2
  unfold candidateRuleId contentHash
  rw [h1, h2]

/-- C6 witness: identical control text with different casing and spacing,
extracted from different documents and chunk positions, receives the same
rule id; a concrete double upsert collapses. -/
theorem ruleId_dedup_upsert_idempotent_witness :
    candidateRuleId "docA" 0 ⟨"Encrypt  Data\nAt Rest", "enabled  == true", "fix a"⟩ =
      candidateRuleId "docB" 7 ⟨"encrypt data at rest", "Enabled == True", "fix b"⟩ ∧
    upsert (upsert [] ⟨"id1", "NIST", "desc", "pred", "rem"⟩)
        ⟨"id1", "NIST", "desc", "pred", "rem"⟩ =
      upsert [] ⟨"id1", "NIST", "desc", "pred", "rem"⟩ :=
  ⟨ruleId_dedup_upsert_idempotent.1 "docA" "docB" 0 7 _ _ (by decide) (by decide),
   ruleId_dedup_upsert_idempotent.2 [] ⟨"id1", "NIST", "desc", "pred", "rem"⟩⟩

/-- C7 (spec-modelled store): with the similarity index unavailable, semantic
retrieval degrades to the exact-tag listing of all Rules carrying the
requested framework — in particular it is nonempty whenever any Rule carries
the tag, never empty solely because of the outage — and with the index
available it returns at most N rules. -/
theorem semanticRetrieve_fallback :
    (∀ (store : List Rule) (fw : String) (n : Nat),
      semanticRetrieve none store fw n = exactTagListing store fw) ∧
    (∀ (store : List Rule) (fw : String) (n : Nat) (r : Rule),
      r ∈ store → r.framework = fw → semanticRetrieve none store fw n ≠ []) ∧
    (∀ (score : Rule → ℚ) (store : List Rule) (fw : String) (n : Nat),
      (semanticRetrieve (some score) store fw n).length ≤ n) := by
  refine ⟨fun store fw n => rfl, ?_, ?_⟩
  · intro store fw n r hr hfw hcon
    have hmem : r ∈ exactTagListing store fw :=
      List.mem_filter.mpr ⟨hr, by simp [hfw]⟩
    have heq : semanticRetrieve none store fw n = exactTagListing store fw := rfl
    rw [heq] at hcon
    rw [hcon] at hmem
    exact (List.not_mem_nil r) hmem
  · intro score store fw n
    exact List.length_take_le n _

/-- C7 witness: the fallback theorem applied at a one-rule store whose rule
carries the requested framework tag. -/
theorem semanticRetrieve_fallback_witness :
    semanticRetrieve none [⟨"id1", "NIST", "desc", "pred", "rem"⟩] "NIST" 3 ≠ [] :=
  semanticRetrieve_fallback.2.1 [⟨"id1", "NIST", "desc", "pred", "rem"⟩] "NIST" 3
    ⟨"id1", "NIST", "desc", "pred", "rem"⟩ (by simp) rfl

/-- C8: `normalizeStatus` is total with closed codomain: every input — absent
status, empty string, arbitrary string — yields one of exactly Idle, Running,
Success, Error; it is case-insensitive, maps done/success to Success,
error/failed/fail to Error, running/in_progress to Running, and every
falsy or unrecognized input to Idle. -/
theorem normalizeStatus_total_closed :
    (∀ x : Option String, normalizeStatus x = "Idle" ∨ normalizeStatus x = "Running" ∨
      normalizeStatus x = "Success" ∨ normalizeStatus x = "Error") ∧
    (∀ s t : String, jsToLowerCase s = jsToLowerCase t →
      normalizeStatus (some s) = normalizeStatus (some t)) ∧
    (∀ s : String, jsToLowerCase s = "done" ∨ jsToLowerCase s = "success" →
      normalizeStatus (some s) = "Success") ∧
    (∀ s : String, jsToLowerCase s = "error" ∨ jsToLowerCase s = "failed" ∨
      jsToLowerCase s = "fail" → normalizeStatus (some s) = "Error") ∧
    (∀ s : String, jsToLowerCase s = "running" ∨ jsToLowerCase s = "in_progress" →
      normalizeStatus (some s) = "Running") ∧
    normalizeStatus none = "Idle" ∧ normalizeStatus (some "") = "Idle" ∧
    (∀ s : String,
      jsToLowerCase s ∉
        (["done", "success", "error", "failed", "fail", "running", "in_progress"] : List String) →
      normalizeStatus (some s) = "Idle") := by
  refine ⟨?_, ?_, ?_, ?_, ?_, rfl, by decide, ?_⟩
  · intro x
    cases x with
    | none => exact Or.inl rfl
    | some s =>
      rw [normalizeStatus_eq_normStep]
      unfold normStep
      split_ifs
      · exact Or.inr (Or.inr (Or.inl rfl))
      · exact Or.inr (Or.inr (Or.inr rfl))
      · exact Or.inr (Or.inl rfl)
      · exact Or.inl rfl
  · intro s t h
    rw [normalizeStatus_eq_normStep, normalizeStatus_eq_normStep, h]
  · intro s h
    rw [normalizeStatus_eq_normStep]
    rcases h with h | h <;> rw [h] <;> decide
  · intro s h
    rw [normalizeStatus_eq_normStep]
    rcases h with h | h | h <;> rw [h] <;> decide
  · intro s h
    rw [normalizeStatus_eq_normStep]
    rcases h with h | h <;> rw [h] <;> decide
  · intro s h
    rw [normalizeStatus_eq_normStep]
    simp only [List.mem_cons, List.not_mem_nil, or_false, not_or] at h
    obtain ⟨h1, h2, h3, h4, h5, h6, h7⟩ := h
    simp [normStep, h1, h2, h3, h4, h5, h6, h7]

/-- C8 witness: the closed-codomain theorem applied at concrete statuses. -/
theorem normalizeStatus_total_closed_witness :
    normalizeStatus (some "DONE") = "Success" ∧
    normalizeStatus (some "Failed") = "Error" ∧
    normalizeStatus (some "In_Progress") = "Running" ∧
    normalizeStatus (some "queued") = "Idle" ∧
    normalizeStatus (some "SUCCESS") = normalizeStatus (some "success") :=
  ⟨normalizeStatus_total_closed.2.2.1 "DONE" (Or.inl (by decide)),
   normalizeStatus_total_closed.2.2.2.1 "Failed" (Or.inr (Or.inl (by decide))),
   normalizeStatus_total_closed.2.2.2.2.1 "In_Progress" (Or.inr (by decide)),
   normalizeStatus_total_closed.2.2.2.2.2.2.2 "queued" (by decide),
   normalizeStatus_total_closed.2.1 "SUCCESS" "success" (by decide)⟩

/-- C3 (spec-modelled emitter): every event emitted to the external bus
carries a status drawn from exactly running, success, error; cross-checked
against the UI, `normalizeStatus` recognizes each such status (never the
unrecognized-input fallback Idle). -/
theorem emitPipelineEvent_status_closed :
    ∀ (p : String) (o : RunOutcome) (summary timestamp : String),
      ((emitPipelineEvent p o summary timestamp).status = "running" ∨
       (emitPipelineEvent p o summary timestamp).status = "success" ∨
       (emitPipelineEvent p o summary timestamp).status = "error") ∧
      normalizeStatus (some (emitPipelineEvent p o summary timestamp).status) ≠ "Idle" := by
  intro p o s t
  cases o with
  | running =>
    exact ⟨Or.inl rfl, by show normalizeStatus (some "running") ≠ "Idle"; decide⟩
  | success =>
    exact ⟨Or.inr (Or.inl rfl), by show normalizeStatus (some "success") ≠ "Idle"; decide⟩
  | error =>
    exact ⟨Or.inr (Or.inr rfl), by show normalizeStatus (some "error") ≠ "Idle"; decide⟩

/-- C10: when `JSON.parse` throws on the audit input, `handleAudit` sets the
error message "Invalid JSON! Please check your input." and returns without
issuing a network request, leaving input and previously displayed result
unchanged. -/
theorem handleAudit_parse_error (parse : String → Option JsVal) (st : AuditState)
    (h : parse st.input = none) :
    handleAudit parse st =
      ({ st with error := "Invalid JSON! Please check your input." }, false) ∧
    (handleAudit parse st).1.result = st.result ∧
    (handleAudit parse st).1.input = st.input ∧
    (handleAudit parse st).2 = false := by
  refine ⟨?_, ?_, ?_, ?_⟩ <;> simp [handleAudit, h]

/-- C9: the `pipeline_update` handler preserves length and order of the
pipeline-state list, leaves every entry whose name differs from the event's
mapped display name unchanged, modifies at most the status of the matching
entry, matches at most one entry when names are distinct, and leaves the
whole list unchanged when no entry carries the mapped display name. -/
theorem applyPipelineUpdate_frame (ev : UpdateEvent) (cur : List PipelineEntry) :
    ((applyPipelineUpdate ev cur).length = cur.length) ∧
    (∀ (i : Nat) (h : i < cur.length) (h2 : i < (applyPipelineUpdate ev cur).length),
      ((cur.get ⟨i, h⟩).name ≠ displayNameOf ev.pipeline →
        (applyPipelineUpdate ev cur).get ⟨i, h2⟩ = cur.get ⟨i, h⟩) ∧
      ((cur.get ⟨i, h⟩).name = displayNameOf ev.pipeline →
        (applyPipelineUpdate ev cur).get ⟨i, h2⟩ =
          { cur.get ⟨i, h⟩ with status := normalizeStatus ev.status })) ∧
    ((∀ p ∈ cur, p.name ≠ displayNameOf ev.pipeline) → applyPipelineUpdate ev cur = cur) ∧
    ((cur.map PipelineEntry.name).Nodup →
      ∀ (i j : Nat) (hi : i < cur.length) (hj : j < cur.length),
        (cur.get ⟨i, hi⟩).name = displayNameOf ev.pipeline →
        (cur.get ⟨j, hj⟩).name = displayNameOf ev.pipeline → i = j) := by
  refine ⟨by simp [applyPipelineUpdate], ?_, ?_, ?_⟩
  · intro i h h2
    constructor
    · intro hne
      simp only [List.get_eq_getElem] at hne ⊢
      simp only [applyPipelineUpdate, List.getElem_map]
      rw [if_neg hne]
    · intro heq
      simp only [List.get_eq_getElem] at heq ⊢
      simp only [applyPipelineUpdate, List.getElem_map]
      rw [if_pos heq]
  · intro hall
    simp only [applyPipelineUpdate]
    conv_rhs => rw [← List.map_id cur]
    apply List.map_congr_left
    intro p hp
    simp [if_neg (hall p hp)]
  · intro hnd i j hi hj hname_i hname_j
    simp only [List.get_eq_getElem] at hname_i hname_j
    have hmi : i < (cur.map PipelineEntry.name).length := by simpa using hi
    have hmj : j < (cur.map PipelineEntry.name).length := by simpa using hj
    have key : (cur.map PipelineEntry.name).get ⟨i, hmi⟩ =
        (cur.map PipelineEntry.name).get ⟨j, hmj⟩ := by
      simp only [List.get_eq_getElem, List.getElem_map]
      rw [hname_i, hname_j]
    exact congrArg Fin.val ((List.Nodup.get_inj_iff hnd).mp key)

/-- C9 witness: the frame theorem applied to the initial pipeline state, once
for an unknown pipeline topic and once for the frame at a non-matching
entry. -/
theorem applyPipelineUpdate_frame_witness :
    applyPipelineUpdate ⟨"unknown-topic", some "done"⟩ initialPipelineStates =
      initialPipelineStates ∧
    (applyPipelineUpdate ⟨"rule-ingestion", some "done"⟩ initialPipelineStates).get
      ⟨1, by decide⟩ = ⟨"Validation", "Idle"⟩ :=
  ⟨(applyPipelineUpdate_frame ⟨"unknown-topic", some "done"⟩
      initialPipelineStates).2.2.1 (by decide),
   ((applyPipelineUpdate_frame ⟨"rule-ingestion", some "done"⟩
      initialPipelineStates).2.1 1 (by decide) (by decide)).1 (by decide)⟩

/-- C10 witness: the parse-error theorem applied at a concrete failing parse
and state. -/
theorem handleAudit_parse_error_witness :
    handleAudit (fun _ => none) ⟨"not json", some (.prim (.num 1)), ""⟩ =
      (⟨"not json", some (.prim (.num 1)), "Invalid JSON! Please check your input."⟩, false) :=
  (handleAudit_parse_error (fun _ => none) ⟨"not json", some (.prim (.num 1)), ""⟩ rfl).1

end CloudCompliance
